import Mathlib

/-!
Shallow embedding of the tilemap editor's core, translated from the Rust
sources `tilemap.rs`, `save.rs`, `mapviewer.rs`, `tileselector.rs` and
`main.rs`.

Conventions:
* machine integers (`u16`, `u32`) become `Nat`, and `i32` becomes `Int`;
  where the source performs 16-bit arithmetic whose result can exceed the
  type's range, the wrap is written explicitly as `% 65536` (release-build
  two's-complement semantics);
* a Rust panic (out-of-bounds `Vec` indexing) is modelled by returning
  `none`, so fallible operations live in `Option`;
* loops become explicit folds (`optFold`) or list maps (`optMap`) in the
  `Option` monad, preserving the source's iteration order.
-/

/-- The `Tile` struct of tilemap.rs: an index into the external tile source
plus two orientation flags. -/
structure Tile where
  value : Nat
  h_flip : Bool
  v_flip : Bool
deriving DecidableEq

/-- `Tile::new`. -/
def Tile.new (value : Nat) (h_flip v_flip : Bool) : Tile :=
  ⟨value, h_flip, v_flip⟩

/-- The `Layer` enum of tilemap.rs. -/
inductive Layer where
  | Background
  | Foreground
deriving DecidableEq

/-- The `LayerContent` struct of tilemap.rs.  `LayerContent::new` builds
`tiles` with `width` outer entries, each an inner vector of length
`height`; all accesses are `tiles[x][y]`. -/
structure LayerContent where
  width : Nat
  height : Nat
  tiles : List (List (Option Tile))
deriving DecidableEq

namespace LayerContent

/-- `LayerContent::new`: the outer vector has `width` rows, each of length
`height`, every cell `None`. -/
def new (width height : Nat) : LayerContent :=
  ⟨width, height, List.replicate width (List.replicate height none)⟩

/-- `LayerContent::set_tile`: `self.tiles[x][y] = value`.  The source has no
bound check; the `Vec` indexing panics when `x` or `y` is out of range of
the actual vector, modelled by `none`. -/
def set_tile (lc : LayerContent) (x y : Nat) (value : Option Tile) : Option LayerContent :=
  lc.tiles[x]?.bind fun row =>
    if y < row.length then
      some { lc with tiles := lc.tiles.set x (row.set y value) }
    else none

/-- `LayerContent::get_tile`: `self.tiles[x][y]`, again panicking (here
`none`) outside the actual vector extents. -/
def get_tile (lc : LayerContent) (x y : Nat) : Option (Option Tile) :=
  lc.tiles[x]?.bind fun row => row[y]?

/-- `LayerContent::resize`, translated literally.  The source first
"takes care of height" by appending to or truncating the *outer* vector
(which `new`/`set_tile`/`get_tile` index by `x`, i.e. whose length is the
width), then "takes care of width" by extending or truncating every inner
row. -/
def resize (lc : LayerContent) (new_width new_height : Nat) : LayerContent :=
  let tiles1 :=
    if new_height > lc.height then
      lc.tiles ++ List.replicate (new_height - lc.height) (List.replicate new_width none)
    else
      lc.tiles.take new_height
  let tiles2 :=
    if new_width > lc.width then
      tiles1.map (fun row => row ++ List.replicate (new_width - lc.width) none)
    else
      tiles1.map (fun row => row.take new_width)
  ⟨new_width, new_height, tiles2⟩

/-- Well-formedness of the in-memory representation: the outer vector
really has `width` rows and every row really has `height` cells.
`LayerContent::new` establishes this and `set_tile` preserves it. -/
def WF (lc : LayerContent) : Prop :=
  lc.tiles.length = lc.width ∧ ∀ row ∈ lc.tiles, row.length = lc.height

instance (lc : LayerContent) : Decidable lc.WF :=
  decidable_of_iff (lc.tiles.length = lc.width ∧ ∀ row ∈ lc.tiles, row.length = lc.height)
    Iff.rfl

end LayerContent

/-- The `TileMap` struct of tilemap.rs: two parallel layers. -/
structure TileMap where
  background : LayerContent
  foreground : LayerContent
deriving DecidableEq

namespace TileMap

/-- `TileMap::new`. -/
def new (width height : Nat) : TileMap :=
  ⟨LayerContent.new width height, LayerContent.new width height⟩

/-- `TileMap::default` is `TileMap::new(32, 32)`. -/
def default : TileMap :=
  TileMap.new 32 32

/-- `TileMap::set_tile` dispatches on the layer. -/
def set_tile (tm : TileMap) (x y : Nat) (value : Option Tile) (layer : Layer) :
    Option TileMap :=
  match layer with
  | Layer.Background =>
    (tm.background.set_tile x y value).map fun b => { tm with background := b }
  | Layer.Foreground =>
    (tm.foreground.set_tile x y value).map fun f => { tm with foreground := f }

/-- `TileMap::get_tile` reads both layers and pairs the results. -/
def get_tile (tm : TileMap) (x y : Nat) : Option (Option Tile × Option Tile) :=
  (tm.background.get_tile x y).bind fun b =>
    (tm.foreground.get_tile x y).map fun f => (b, f)

/-- `TileMap::resize` resizes both layers. -/
def resize (tm : TileMap) (new_width new_height : Nat) : TileMap :=
  ⟨tm.background.resize new_width new_height, tm.foreground.resize new_width new_height⟩

/-- `TileMap::get_dimensions` returns the background's dimensions. -/
def get_dimensions (tm : TileMap) : Nat × Nat :=
  (tm.background.width, tm.background.height)

/-- Well-formedness of a `TileMap`: both layers well-formed with equal
dimensions. -/
def WF (tm : TileMap) : Prop :=
  tm.background.WF ∧ tm.foreground.WF ∧
    tm.background.width = tm.foreground.width ∧
    tm.background.height = tm.foreground.height

instance (tm : TileMap) : Decidable tm.WF :=
  decidable_of_iff (tm.background.WF ∧ tm.foreground.WF ∧
    tm.background.width = tm.foreground.width ∧
    tm.background.height = tm.foreground.height) Iff.rfl

end TileMap

/-! ### Loop combinators

A Rust `for` loop whose body can panic becomes a left fold in the `Option`
monad; a loop that pushes one element per iteration becomes `optMap`.
Both preserve the source's iteration order and stop at the first panic. -/

/-- Left fold in the `Option` monad: a loop over `List α` threading a state
`σ`, aborting (`none`) as soon as one iteration panics. -/
def optFold (f : σ → α → Option σ) : σ → List α → Option σ
  | s, [] => some s
  | s, a :: l => (f s a).bind fun s' => optFold f s' l

/-- Element-wise map in the `Option` monad, evaluating left to right. -/
def optMap (f : α → Option β) : List α → Option (List β)
  | [] => some []
  | a :: l => (f a).bind fun b => (optMap f l).bind fun l' => some (b :: l')

/-- The coordinate sequence of the nested loops
`for y in 0..height { for x in 0..width { ... } }` used by the persistence
codec (save.rs): row-major, `y` outer, `x` inner. -/
def gridPairs (width height : Nat) : List (Nat × Nat) :=
  (List.range height).flatMap fun y => (List.range width).map fun x => (x, y)

/-! ### Persistence codec (save.rs) -/

/-- The `Layer` struct of save.rs (a flattened tile sequence); named
`StorageLayer` here because tilemap.rs already owns the name `Layer`
(save.rs itself renames the other one to `TMLayer` for the same reason). -/
structure StorageLayer where
  tiles : List (Option Tile)
deriving DecidableEq

/-- The `TileMapStorage` struct of save.rs. -/
structure TileMapStorage where
  width : Nat
  height : Nat
  background : StorageLayer
  foreground : StorageLayer
deriving DecidableEq

/-- `impl From<TileMap> for TileMapStorage` (save.rs): for `y` in
`0..height`, for `x` in `0..width`, read `get_tile(x, y)` and push the
background component onto one flat sequence and the foreground component
onto the other. -/
def TileMap.encode (tm : TileMap) : Option TileMapStorage :=
  let dims := tm.get_dimensions
  (optMap (fun p => tm.get_tile p.1 p.2) (gridPairs dims.1 dims.2)).map fun cells =>
    { width := dims.1
      height := dims.2
      background := ⟨cells.map Prod.fst⟩
      foreground := ⟨cells.map Prod.snd⟩ }

/-- `impl From<TileMapStorage> for TileMap` (save.rs): build
`TileMap::new(width, height)` and, for `y` in `0..height`, `x` in
`0..width`, copy `tiles[(x + y * width) as usize]` of each flat sequence
into the cell `(x, y)` of the corresponding layer.  The index `x + y *
width` is computed in `u16` arithmetic before the cast, hence the explicit
`% 65536`; the flat-sequence indexing panics (`none`) when the index is
past the end.  No length check of any kind is performed.  `decodeStep` is
one iteration of the copy loop; `decode` folds it over all cells. -/
def decodeStep (s : TileMapStorage) (tm : TileMap) (p : Nat × Nat) : Option TileMap :=
  (s.background.tiles[(p.1 + p.2 * s.width) % 65536]?).bind fun bt =>
    (tm.set_tile p.1 p.2 bt Layer.Background).bind fun tm1 =>
      (s.foreground.tiles[(p.1 + p.2 * s.width) % 65536]?).bind fun ft =>
        tm1.set_tile p.1 p.2 ft Layer.Foreground

/-- Body of `impl From<TileMapStorage> for TileMap` (save.rs), see
`decodeStep`. -/
def TileMapStorage.decode (s : TileMapStorage) : Option TileMap :=
  optFold (decodeStep s) (TileMap.new s.width s.height) (gridPairs s.width s.height)

/-! ### Map viewer (mapviewer.rs)

The `canvas::Cache` is abstracted to a staleness flag: `cache.clear()`
becomes `cacheValid := false`.  The shared `Tiles` handle is only consumed
by drawing, which is not modelled. -/

/-- The `Tool` enum of mapviewer.rs. -/
inductive Tool where
  | Pen
  | Rect
  | Selection
deriving DecidableEq

/-- The mutable part of the `MapViewer` struct of mapviewer.rs. -/
structure MapViewer where
  modified : Bool
  tool : Tool
  tile : Option Tile
  map : TileMap
  cacheValid : Bool
deriving DecidableEq

namespace MapViewer

/-- `MapViewer::new` (the fresh cache starts unrendered). -/
def new : MapViewer :=
  ⟨false, Tool.Pen, none, TileMap.default, false⟩

/-- `MapViewer::set_tile`: sets `modified`, writes the Background cell
through `TileMap::set_tile`, and clears the cache.  The map write can
panic (`none`). -/
def set_tile (mv : MapViewer) (x y : Nat) (value : Option Tile) : Option MapViewer :=
  (mv.map.set_tile x y value Layer.Background).map fun m =>
    { mv with modified := true, map := m, cacheValid := false }

/-- `MapViewer::get_tile`: reads both layers and projects the requested
one. -/
def get_tile (mv : MapViewer) (x y : Nat) (layer : Layer) : Option (Option Tile) :=
  (mv.map.get_tile x y).map fun tiles =>
    match layer with
    | Layer.Background => tiles.1
    | Layer.Foreground => tiles.2

/-- `MapViewer::refresh`. -/
def refresh (mv : MapViewer) : MapViewer :=
  { mv with cacheValid := false }

/-- `MapViewer::get_map_instant`. -/
def get_map_instant (mv : MapViewer) : TileMap :=
  mv.map

/-- `MapViewer::set_entire_map`. -/
def set_entire_map (mv : MapViewer) (map : TileMap) : MapViewer :=
  { mv with map := map, modified := false, cacheValid := false }

end MapViewer

/-- The ascending `i32` range `lo..hi` of a Rust `for` loop, as a list. -/
def intRange (lo hi : Int) : List Int :=
  (List.range (hi - lo).toNat).map fun (i : Nat) => lo + (i : Int)

/-- The `as u16` cast of an `i32`: keep the low 16 bits. -/
def u16ofInt (c : Int) : Nat :=
  (c % 65536).toNat

/-- The coordinate sequence of `MapViewer::fill_rect`'s nested loops:
`x` outer from `min_x` to `min_x + width.abs()`, `y` inner likewise. -/
def rectCells (min_x min_y : Int) (width height : Int) : List (Int × Int) :=
  (intRange min_x (min_x + width.natAbs)).flatMap fun cx =>
    (intRange min_y (min_y + height.natAbs)).map fun cy => (cx, cy)

/-- One iteration of `MapViewer::fill_rect`'s loop body:
`self.set_tile(cx as u16, cy as u16, self.tile)`. -/
def fillStep (mv : MapViewer) (c : Int × Int) : Option MapViewer :=
  mv.set_tile (u16ofInt c.1) (u16ofInt c.2) mv.tile

/-- `MapViewer::fill_rect`: `min_x = min(x, x + width)` (likewise `min_y`)
in `i32`, then `set_tile((cx as u16), (cy as u16), self.tile)` for every
cell of the rectangle `[min_x, min_x + |width|) × [min_y, min_y +
|height|)`. -/
def MapViewer.fill_rect (mv : MapViewer) (x y : Nat) (width height : Int) :
    Option MapViewer :=
  let min_x : Int := min (x : Int) ((x : Int) + width)
  let min_y : Int := min (y : Int) ((y : Int) + height)
  optFold fillStep mv (rectCells min_x min_y width height)

/-- The `Interaction` enum of mapviewer.rs (the canvas program's state). -/
inductive Interaction where
  | None
  | Drawing
  | Rectangle (x y : Nat)
  | Erasing
deriving DecidableEq

/-- The `ViewerState` struct of mapviewer.rs; its `Default` is
`(Interaction::None, (0, 0))`. -/
structure ViewerState where
  interaction : Interaction
  rect_dimensions : Int × Int
deriving DecidableEq

/-- The messages the map-viewer canvas emits (a subset of the application
`Message` enum; `PaintRect`, `RectStarted` and `Redraw` appear only at
their emission sites in the provided mapviewer.rs). -/
inductive ViewerMessage where
  | PaintTile (x y : Nat)
  | ClearTile (x y : Nat)
  | RectStarted
  | Redraw
  | PaintRect (x y : Nat) (width height : Int)
deriving DecidableEq

/-- The mouse events relevant to `canvas::Program::update` in
mapviewer.rs, already resolved to a button kind. -/
inductive CanvasEvent where
  | ButtonReleased
  | LeftPressed
  | RightPressed
  | CursorMoved
deriving DecidableEq

/-- The sign-aware length closure `length` inside the cursor-move arm of
mapviewer.rs: `sub = a - b` in `i32`, result `sub + (if sub >= 0 then 1
else 0)`. -/
def rectLength (a b : Nat) : Int :=
  let sub : Int := (a : Int) - (b : Int)
  sub + (if 0 ≤ sub then 1 else 0)

/-- `canvas::Program::update` for `MapViewer` (mapviewer.rs), given the
active tool, the canvas state, the event, and the pointer's cell
coordinates `(x, y)`; returns the new state and the emitted message. -/
def canvasUpdate (tool : Tool) (state : ViewerState) (event : CanvasEvent) (x y : Nat) :
    ViewerState × Option ViewerMessage :=
  match event with
  | CanvasEvent.ButtonReleased =>
    match state.interaction with
    | Interaction.Rectangle rx ry =>
      (⟨Interaction.None, state.rect_dimensions⟩,
        some (ViewerMessage.PaintRect rx ry state.rect_dimensions.1 state.rect_dimensions.2))
    | _ => (⟨Interaction.None, state.rect_dimensions⟩, none)
  | CanvasEvent.LeftPressed =>
    match tool with
    | Tool.Pen => (⟨Interaction.Drawing, state.rect_dimensions⟩, some (ViewerMessage.PaintTile x y))
    | Tool.Rect => (⟨Interaction.Rectangle x y, (1, 1)⟩, some ViewerMessage.RectStarted)
    | Tool.Selection => (state, none)
  | CanvasEvent.RightPressed =>
    (⟨Interaction.Erasing, state.rect_dimensions⟩, some (ViewerMessage.ClearTile x y))
  | CanvasEvent.CursorMoved =>
    match state.interaction with
    | Interaction.Drawing => (state, some (ViewerMessage.PaintTile x y))
    | Interaction.Erasing => (state, some (ViewerMessage.ClearTile x y))
    | Interaction.Rectangle rx ry =>
      (⟨Interaction.Rectangle rx ry, (rectLength x rx, rectLength y ry)⟩,
        some ViewerMessage.Redraw)
    | Interaction.None => (state, none)

/-! ### Tile selector (tileselector.rs)

The shared `Tiles` cell is abstracted to the frame count of the loaded
atlas (`none` when no atlas is loaded), which is all `select` consumes. -/

/-- The mutable part of the `TileSelector` struct of tileselector.rs. -/
structure TileSelector where
  selected : Option Nat
  cacheValid : Bool
deriving DecidableEq

namespace TileSelector

/-- `TileSelector::new`. -/
def new : TileSelector :=
  ⟨none, false⟩

/-- `TileSelector::select`: with an atlas loaded, accept only
`i < content.num_frames()` (then also clear the cache); otherwise leave
everything untouched. -/
def select (ts : TileSelector) (content : Option Nat) (i : Nat) : TileSelector :=
  match content with
  | some frames =>
    if i < frames then { ts with selected := some i, cacheValid := false } else ts
  | none => ts

/-- `TileSelector::unselect`. -/
def unselect (_ts : TileSelector) : TileSelector :=
  ⟨none, false⟩

/-- `TileSelector::reset` (identical to `unselect` on the modelled fields;
the source keeps the shared atlas reference, which the model stores
elsewhere). -/
def reset (_ts : TileSelector) : TileSelector :=
  ⟨none, false⟩

/-- Modelled from the spec: `TileSelector::get_selected` is called by the
`PaintTile` handler in main.rs but its definition is missing from the
provided sources (only its caller is present).  Per the spec the core
exposes the "current selection", which gates "which tile value subsequent
paints use", so it returns the `selected` field unchanged. -/
def get_selected (ts : TileSelector) : Option Nat :=
  ts.selected

end TileSelector

/-! ### Application update loop (main.rs) -/

/-- The `LoadingState` enum of main.rs (the operation latch). -/
inductive LoadingState where
  | Inactive
  | NewMap
  | OpeningMap
  | SavingMap
  | LoadingTiles
  | Error
deriving DecidableEq

/-- `LoadingState::inactive`. -/
def LoadingState.inactive : LoadingState → Bool
  | LoadingState.Inactive => true
  | _ => false

/-- `LoadingState::active`. -/
def LoadingState.active (s : LoadingState) : Bool :=
  !s.inactive

/-- `LoadingState::is_error`. -/
def LoadingState.is_error : LoadingState → Bool
  | LoadingState.Error => true
  | _ => false

/-- The user-triggered synchronous messages of the `Message` enum of
main.rs.  The asynchronous completion messages (`CreateNewMap`,
`MapOpened`, `MapSaved`, `TilesOpened`) carry dialog and file-system
results and are outside the modelled slice. -/
inductive Message where
  | ErrorClosed
  | NewMap
  | OpenMap
  | SaveMap
  | OpenTiles
  | TileSelected (i : Nat)
  | TileUnSelected
  | PaintTile (x y : Nat)
  | ClearTile (x y : Nat)
deriving DecidableEq

/-- The `TilemapEditor` struct of main.rs.  The shared
`Rc<RefCell<Option<AsepriteFile>>>` is abstracted to the loaded atlas's
frame count. -/
structure TilemapEditor where
  loading_state : LoadingState
  tiles : Option Nat
  tile_selector : TileSelector
  map_viewer : MapViewer
deriving DecidableEq

/-- `Application::update` for `TilemapEditor` (main.rs), restricted to the
modelled messages.  The returned `Bool` records whether the handler
returned a `Command::perform` (started an asynchronous operation);
`none` models a panic inside the handler.  The error-latch guard at the
top of the source function is mirrored first. -/
def TilemapEditor.update (e : TilemapEditor) (message : Message) :
    Option (TilemapEditor × Bool) :=
  if e.loading_state.is_error then
    match message with
    | Message.ErrorClosed => some ({ e with loading_state := LoadingState.Inactive }, false)
    | _ => some (e, false)
  else
    match message with
    | Message.ErrorClosed => some ({ e with loading_state := LoadingState.Inactive }, false)
    | Message.NewMap =>
      some ({ e with loading_state := LoadingState.NewMap }, true)
    | Message.OpenMap =>
      if e.loading_state.active then some (e, false)
      else some ({ e with loading_state := LoadingState.OpeningMap }, true)
    | Message.SaveMap =>
      if e.loading_state.active then some (e, false)
      else some ({ e with loading_state := LoadingState.SavingMap }, true)
    | Message.OpenTiles =>
      if e.loading_state.active then some (e, false)
      else some ({ e with loading_state := LoadingState.LoadingTiles }, true)
    | Message.TileSelected i =>
      some ({ e with tile_selector := e.tile_selector.select e.tiles i }, false)
    | Message.TileUnSelected =>
      some ({ e with tile_selector := e.tile_selector.unselect }, false)
    | Message.PaintTile x y =>
      let value :=
        match e.tile_selector.get_selected with
        | some t => some (some (Tile.new t false false))
        | none => e.map_viewer.get_tile x y Layer.Background
      match value with
      | none => none
      | some v =>
        (e.map_viewer.set_tile x y v).map fun mv => ({ e with map_viewer := mv }, false)
    | Message.ClearTile x y =>
      (e.map_viewer.set_tile x y none).map fun mv => ({ e with map_viewer := mv }, false)

/-! ### Model helpers and concrete instances used by the statements -/

/-- The layer opposite to a given one (to speak about "the other layer"). -/
def Layer.other : Layer → Layer
  | Layer.Background => Layer.Foreground
  | Layer.Foreground => Layer.Background

/-- Projection of a `TileMap` onto one of its two layers. -/
def TileMap.layerOf (tm : TileMap) : Layer → LayerContent
  | Layer.Background => tm.background
  | Layer.Foreground => tm.foreground

/-- A 256 × 257 grid (65 792 cells, dimensions legal for `u16`) whose only
occupied cell is the background at `(0, 0)`.  Because `256 * 256 = 65536`,
the flat index `x + y * width` of cell `(0, 256)` overflows `u16`
arithmetic back to `0` during decoding. -/
def cexGrid : TileMap :=
  ⟨⟨256, 257,
    (List.replicate 256 (List.replicate 257 (none : Option Tile))).set 0
      ((List.replicate 257 (none : Option Tile)).set 0 (some (Tile.new 5 false false)))⟩,
   LayerContent.new 256 257⟩

/-- A persisted record for a 1 × 1 grid whose background sequence has two
entries instead of one. -/
def tooLongStorage : TileMapStorage :=
  ⟨1, 1, ⟨[none, none]⟩, ⟨[none]⟩⟩

/-- An editor session that is in the middle of loading a tile atlas. -/
def latchedEditor : TilemapEditor :=
  ⟨LoadingState.LoadingTiles, none, TileSelector.new, MapViewer.new⟩

/-- An idle editor session over a 2 × 2 map with an atlas of 8 frames
loaded and no palette tile selected. -/
def sampleEditor : TilemapEditor :=
  ⟨LoadingState.Inactive, some 8, TileSelector.new,
    ⟨false, Tool.Pen, none, TileMap.new 2 2, false⟩⟩

/-- A viewer in rectangle mode over a 4 × 4 map with palette tile 7
selected. -/
def rectViewer : MapViewer :=
  ⟨false, Tool.Rect, some (Tile.new 7 false false), TileMap.new 4 4, false⟩

/-! ### Arithmetic and list helpers -/

theorem flatIdx_lt {x y w h : Nat} (hx : x < w) (hy : y < h) : x + y * w < w * h := by
  calc x + y * w < w + y * w := by omega
    _ = (y + 1) * w := by ring
    _ ≤ h * w := Nat.mul_le_mul_right w hy
    _ = w * h := Nat.mul_comm h w

theorem mem_intRange {lo hi z : Int} (h : lo ≤ hi) :
    z ∈ intRange lo hi ↔ lo ≤ z ∧ z < hi := by
  unfold intRange
  simp only [List.mem_map, List.mem_range]
  constructor
  · rintro ⟨i, hi', rfl⟩
    have h1 : ((hi - lo).toNat : Int) = hi - lo := Int.toNat_of_nonneg (by omega)
    have h2 : (i : Int) < ((hi - lo).toNat : Int) := by exact_mod_cast hi'
    have h3 : (0 : Int) ≤ (i : Int) := Int.natCast_nonneg i
    rw [h1] at h2
    exact ⟨by omega, by omega⟩
  · rintro ⟨h1, h2⟩
    refine ⟨(z - lo).toNat, ?_, ?_⟩
    · have h3 : ((z - lo).toNat : Int) = z - lo := Int.toNat_of_nonneg (by omega)
      have h4 : ((hi - lo).toNat : Int) = hi - lo := Int.toNat_of_nonneg (by omega)
      have h5 : ((z - lo).toNat : Int) < ((hi - lo).toNat : Int) := by
        rw [h3, h4]; omega
      exact_mod_cast h5
    · have h3 : ((z - lo).toNat : Int) = z - lo := Int.toNat_of_nonneg (by omega)
      rw [h3]; omega

theorem gridPairs_succ (w h : Nat) :
    gridPairs w (h + 1) = gridPairs w h ++ (List.range w).map (fun x => (x, h)) := by
  unfold gridPairs
  rw [List.range_succ, List.flatMap_append]
  simp

theorem gridPairs_length (w h : Nat) : (gridPairs w h).length = h * w := by
  induction h with
  | zero => simp [gridPairs]
  | succ n ih =>
    rw [gridPairs_succ, List.length_append, ih, List.length_map, List.length_range]
    ring

theorem mem_gridPairs {w h : Nat} {p : Nat × Nat} :
    p ∈ gridPairs w h ↔ p.1 < w ∧ p.2 < h := by
  unfold gridPairs
  simp only [List.mem_flatMap, List.mem_map, List.mem_range]
  constructor
  · rintro ⟨y, hy, x, hx, rfl⟩
    exact ⟨hx, hy⟩
  · rintro ⟨h1, h2⟩
    exact ⟨p.2, h2, p.1, h1, rfl⟩

theorem gridPairs_getElem? {w h x y : Nat} (hx : x < w) (hy : y < h) :
    (gridPairs w h)[y * w + x]? = some (x, y) := by
  induction h with
  | zero => omega
  | succ n ih =>
    rw [gridPairs_succ, List.getElem?_append]
    rcases Nat.lt_or_ge y n with h' | h'
    · have hlt : y * w + x < (gridPairs w n).length := by
        rw [gridPairs_length]
        calc y * w + x < y * w + w := by omega
          _ = (y + 1) * w := by ring
          _ ≤ n * w := Nat.mul_le_mul_right w h'
      rw [if_pos hlt]
      exact ih h'
    · have hy' : y = n := by omega
      subst hy'
      have hlen : (gridPairs w y).length = y * w := gridPairs_length w y
      rw [if_neg (by omega)]
      rw [hlen, Nat.add_sub_cancel_left, List.getElem?_map, List.getElem?_range hx]
      rfl

/-! ### LayerContent lemmas -/

namespace LayerContent

theorem get_tile_def (lc : LayerContent) (x y : Nat) :
    lc.get_tile x y = lc.tiles[x]?.bind fun row => row[y]? :=
  rfl

theorem set_tile_def (lc : LayerContent) (x y : Nat) (v : Option Tile) :
    lc.set_tile x y v = lc.tiles[x]?.bind fun row =>
      if y < row.length then
        some { lc with tiles := lc.tiles.set x (row.set y v) }
      else none :=
  rfl

theorem WF_new (w h : Nat) : (new w h).WF := by
  constructor
  · simp [new]
  · intro row hrow
    rw [List.eq_of_mem_replicate hrow]
    simp [new]

theorem get_tile_new {w h x y : Nat} (hx : x < w) (hy : y < h) :
    (new w h).get_tile x y = some none := by
  rw [get_tile_def]
  show ((List.replicate w (List.replicate h (none : Option Tile)))[x]?.bind fun row => row[y]?)
      = some none
  rw [List.getElem?_replicate, if_pos hx]
  simp [List.getElem?_replicate, hy]

theorem get_tile_isSome {lc : LayerContent} (hwf : lc.WF) {x y : Nat}
    (hx : x < lc.width) (hy : y < lc.height) : ∃ t, lc.get_tile x y = some t := by
  obtain ⟨hlen, hrows⟩ := hwf
  have hx' : x < lc.tiles.length := by omega
  have hrowlen : lc.tiles[x].length = lc.height := hrows _ (List.getElem_mem hx')
  refine ⟨lc.tiles[x][y], ?_⟩
  rw [get_tile_def, List.getElem?_eq_getElem hx']
  exact List.getElem?_eq_getElem (by omega)

theorem set_tile_some {lc lc' : LayerContent} {x y : Nat} {v : Option Tile}
    (h : lc.set_tile x y v = some lc') :
    ∃ row, lc.tiles[x]? = some row ∧ y < row.length ∧
      lc' = { lc with tiles := lc.tiles.set x (row.set y v) } := by
  rw [set_tile_def] at h
  cases hrow : lc.tiles[x]? with
  | none => rw [hrow] at h; simp at h
  | some row =>
    rw [hrow] at h
    simp only [Option.some_bind] at h
    by_cases hy : y < row.length
    · rw [if_pos hy] at h
      exact ⟨row, rfl, hy, (Option.some.injEq _ _ ▸ h).symm⟩
    · rw [if_neg hy] at h
      simp at h

theorem set_tile_some_width {lc lc' : LayerContent} {x y : Nat} {v : Option Tile}
    (h : lc.set_tile x y v = some lc') : lc'.width = lc.width := by
  obtain ⟨row, _, _, rfl⟩ := set_tile_some h
  rfl

theorem set_tile_some_height {lc lc' : LayerContent} {x y : Nat} {v : Option Tile}
    (h : lc.set_tile x y v = some lc') : lc'.height = lc.height := by
  obtain ⟨row, _, _, rfl⟩ := set_tile_some h
  rfl

theorem set_tile_some_WF {lc lc' : LayerContent} {x y : Nat} {v : Option Tile}
    (h : lc.set_tile x y v = some lc') (hwf : lc.WF) : lc'.WF := by
  obtain ⟨row, hrow, hy, rfl⟩ := set_tile_some h
  obtain ⟨hlen, hrows⟩ := hwf
  constructor
  · simpa using hlen
  · intro r hr
    rcases List.mem_or_eq_of_mem_set hr with hr' | rfl
    · exact hrows _ hr'
    · rw [List.length_set]
      obtain ⟨hxlt, hrowx⟩ := List.getElem?_eq_some_iff.mp hrow
      exact hrowx ▸ hrows _ (List.getElem_mem hxlt)

theorem set_tile_some_get_self {lc lc' : LayerContent} {x y : Nat} {v : Option Tile}
    (h : lc.set_tile x y v = some lc') : lc'.get_tile x y = some v := by
  obtain ⟨row, hrow, hy, rfl⟩ := set_tile_some h
  obtain ⟨hxlt, hrowx⟩ := List.getElem?_eq_some_iff.mp hrow
  rw [get_tile_def]
  show ((lc.tiles.set x (row.set y v))[x]?.bind fun r => r[y]?) = some v
  rw [List.getElem?_set_self (by simpa using hxlt)]
  simp only [Option.some_bind]
  exact List.getElem?_set_self (by simpa using hy)

theorem set_tile_some_get_other {lc lc' : LayerContent} {x y : Nat} {v : Option Tile}
    (h : lc.set_tile x y v = some lc') {x' y' : Nat} (hne : (x', y') ≠ (x, y)) :
    lc'.get_tile x' y' = lc.get_tile x' y' := by
  obtain ⟨row, hrow, hy, rfl⟩ := set_tile_some h
  rw [get_tile_def, get_tile_def]
  show ((lc.tiles.set x (row.set y v))[x']?.bind fun r => r[y']?)
      = lc.tiles[x']?.bind fun r => r[y']?
  by_cases hx' : x' = x
  · subst hx'
    have hy' : y' ≠ y := by
      intro hy'; exact hne (by rw [hy'])
    rw [List.getElem?_set_self ?hlt, hrow]
    case hlt => exact (List.getElem?_eq_some_iff.mp hrow).1
    simp only [Option.some_bind]
    exact List.getElem?_set_ne (by omega)
  · rw [List.getElem?_set_ne (by omega)]

theorem set_tile_isSome {lc : LayerContent} (hwf : lc.WF) {x y : Nat}
    (hx : x < lc.width) (hy : y < lc.height) (v : Option Tile) :
    ∃ lc', lc.set_tile x y v = some lc' := by
  obtain ⟨hlen, hrows⟩ := hwf
  have hx' : x < lc.tiles.length := by omega
  have hrowlen : lc.tiles[x].length = lc.height := hrows _ (List.getElem_mem hx')
  rw [set_tile_def, List.getElem?_eq_getElem hx']
  simp only [Option.some_bind]
  rw [if_pos (by omega)]
  exact ⟨_, rfl⟩

end LayerContent

/-! ### TileMap lemmas -/

namespace TileMap

theorem map_WF_new (w h : Nat) : (TileMap.new w h).WF :=
  ⟨LayerContent.WF_new w h, LayerContent.WF_new w h, rfl, rfl⟩

theorem get_tile_eq_some {tm : TileMap} {x y : Nat} {b f : Option Tile}
    (hb : tm.background.get_tile x y = some b) (hf : tm.foreground.get_tile x y = some f) :
    tm.get_tile x y = some (b, f) := by
  unfold get_tile
  rw [hb, Option.some_bind, hf, Option.map_some']

theorem map_get_tile_new {w h x y : Nat} (hx : x < w) (hy : y < h) :
    (TileMap.new w h).get_tile x y = some (none, none) :=
  get_tile_eq_some (LayerContent.get_tile_new hx hy) (LayerContent.get_tile_new hx hy)

theorem map_get_tile_isSome {tm : TileMap} (hwf : tm.WF) {x y : Nat}
    (hx : x < tm.get_dimensions.1) (hy : y < tm.get_dimensions.2) :
    ∃ b f, tm.get_tile x y = some (b, f) := by
  obtain ⟨hbg, hfg, hw, hh⟩ := hwf
  obtain ⟨b, hb⟩ := LayerContent.get_tile_isSome hbg hx hy
  obtain ⟨f, hf⟩ := LayerContent.get_tile_isSome hfg
    (by rw [← hw]; exact hx) (by rw [← hh]; exact hy)
  exact ⟨b, f, get_tile_eq_some hb hf⟩

theorem set_tile_bg_some {tm tm' : TileMap} {x y : Nat} {v : Option Tile}
    (h : tm.set_tile x y v Layer.Background = some tm') :
    ∃ b, tm.background.set_tile x y v = some b ∧ tm' = { tm with background := b } := by
  unfold set_tile at h
  cases hb : tm.background.set_tile x y v with
  | none => rw [hb] at h; cases h
  | some b =>
    rw [hb, Option.map_some'] at h
    injection h with h
    exact ⟨b, rfl, h.symm⟩

theorem set_tile_fg_some {tm tm' : TileMap} {x y : Nat} {v : Option Tile}
    (h : tm.set_tile x y v Layer.Foreground = some tm') :
    ∃ f, tm.foreground.set_tile x y v = some f ∧ tm' = { tm with foreground := f } := by
  unfold set_tile at h
  cases hf : tm.foreground.set_tile x y v with
  | none => rw [hf] at h; cases h
  | some f =>
    rw [hf, Option.map_some'] at h
    injection h with h
    exact ⟨f, rfl, h.symm⟩

theorem set_tile_some_dims {tm tm' : TileMap} {x y : Nat} {v : Option Tile} {l : Layer}
    (h : tm.set_tile x y v l = some tm') : tm'.get_dimensions = tm.get_dimensions := by
  cases l with
  | Background =>
    obtain ⟨b, hb, rfl⟩ := set_tile_bg_some h
    unfold get_dimensions
    rw [show ({ tm with background := b } : TileMap).background = b from rfl,
      LayerContent.set_tile_some_width hb, LayerContent.set_tile_some_height hb]
  | Foreground =>
    obtain ⟨f, hf, rfl⟩ := set_tile_fg_some h
    rfl

theorem map_set_tile_some_WF {tm tm' : TileMap} {x y : Nat} {v : Option Tile} {l : Layer}
    (h : tm.set_tile x y v l = some tm') (hwf : tm.WF) : tm'.WF := by
  obtain ⟨h1, h2, h3, h4⟩ := hwf
  cases l with
  | Background =>
    obtain ⟨b, hb, rfl⟩ := set_tile_bg_some h
    exact ⟨LayerContent.set_tile_some_WF hb h1, h2,
      (LayerContent.set_tile_some_width hb).trans h3,
      (LayerContent.set_tile_some_height hb).trans h4⟩
  | Foreground =>
    obtain ⟨f, hf, rfl⟩ := set_tile_fg_some h
    exact ⟨h1, LayerContent.set_tile_some_WF hf h2,
      h3.trans (LayerContent.set_tile_some_width hf).symm,
      h4.trans (LayerContent.set_tile_some_height hf).symm⟩

theorem map_set_tile_some_get_self {tm tm' : TileMap} {x y : Nat} {v : Option Tile} {l : Layer}
    (h : tm.set_tile x y v l = some tm') : (tm'.layerOf l).get_tile x y = some v := by
  cases l with
  | Background =>
    obtain ⟨b, hb, rfl⟩ := set_tile_bg_some h
    exact LayerContent.set_tile_some_get_self hb
  | Foreground =>
    obtain ⟨f, hf, rfl⟩ := set_tile_fg_some h
    exact LayerContent.set_tile_some_get_self hf

theorem set_tile_some_other {tm tm' : TileMap} {x y : Nat} {v : Option Tile} {l : Layer}
    (h : tm.set_tile x y v l = some tm') : tm'.layerOf l.other = tm.layerOf l.other := by
  cases l with
  | Background =>
    obtain ⟨b, hb, rfl⟩ := set_tile_bg_some h
    rfl
  | Foreground =>
    obtain ⟨f, hf, rfl⟩ := set_tile_fg_some h
    rfl

theorem map_set_tile_some_get_other {tm tm' : TileMap} {x y : Nat} {v : Option Tile} {l : Layer}
    (h : tm.set_tile x y v l = some tm') {x' y' : Nat} (hne : (x', y') ≠ (x, y)) :
    (tm'.layerOf l).get_tile x' y' = (tm.layerOf l).get_tile x' y' := by
  cases l with
  | Background =>
    obtain ⟨b, hb, rfl⟩ := set_tile_bg_some h
    exact LayerContent.set_tile_some_get_other hb hne
  | Foreground =>
    obtain ⟨f, hf, rfl⟩ := set_tile_fg_some h
    exact LayerContent.set_tile_some_get_other hf hne

theorem map_set_tile_isSome {tm : TileMap} (hwf : tm.WF) {x y : Nat}
    (hx : x < tm.get_dimensions.1) (hy : y < tm.get_dimensions.2)
    (v : Option Tile) (l : Layer) : ∃ tm', tm.set_tile x y v l = some tm' := by
  cases l with
  | Background =>
    obtain ⟨b, hb⟩ := LayerContent.set_tile_isSome hwf.1 hx hy v
    exact ⟨_, by unfold set_tile; rw [hb, Option.map_some']⟩
  | Foreground =>
    have hx' : x < tm.foreground.width := by rw [← hwf.2.2.1]; exact hx
    have hy' : y < tm.foreground.height := by rw [← hwf.2.2.2]; exact hy
    obtain ⟨f, hf⟩ := LayerContent.set_tile_isSome hwf.2.1 hx' hy' v
    exact ⟨_, by unfold set_tile; rw [hf, Option.map_some']⟩

end TileMap

/-! ### Combinator lemmas -/

theorem optMap_some_length {α β : Type _} {f : α → Option β} {l : List α} {l' : List β}
    (h : optMap f l = some l') : l'.length = l.length := by
  induction l generalizing l' with
  | nil =>
    simp only [optMap] at h
    injection h with h
    subst h
    rfl
  | cons a l ih =>
    simp only [optMap] at h
    cases hfa : f a with
    | none => simp [hfa] at h
    | some b =>
      cases hrec : optMap f l with
      | none => simp [hfa, hrec] at h
      | some l'' =>
        simp only [hfa, hrec, Option.some_bind] at h
        injection h with h
        subst h
        simp [ih hrec]

theorem optMap_some_getElem? {α β : Type _} {f : α → Option β} {l : List α} {l' : List β}
    (h : optMap f l = some l') {i : Nat} {a : α} (ha : l[i]? = some a) : l'[i]? = f a := by
  induction l generalizing l' i with
  | nil => simp at ha
  | cons x l ih =>
    simp only [optMap] at h
    cases hfx : f x with
    | none => simp [hfx] at h
    | some b =>
      cases hrec : optMap f l with
      | none => simp [hfx, hrec] at h
      | some l'' =>
        simp only [hfx, hrec, Option.some_bind] at h
        injection h with h
        subst h
        cases i with
        | zero =>
          simp only [List.getElem?_cons_zero] at ha ⊢
          injection ha with ha
          subst ha
          exact hfx.symm
        | succ n =>
          simp only [List.getElem?_cons_succ] at ha ⊢
          exact ih hrec ha

theorem optMap_isSome {α β : Type _} {f : α → Option β} {l : List α}
    (h : ∀ a ∈ l, (f a).isSome) : ∃ l', optMap f l = some l' := by
  induction l with
  | nil => exact ⟨[], rfl⟩
  | cons a l ih =>
    obtain ⟨b, hb⟩ := Option.isSome_iff_exists.mp (h a (List.mem_cons_self a l))
    obtain ⟨l', hl'⟩ := ih fun x hx => h x (List.mem_cons_of_mem a hx)
    exact ⟨b :: l', by simp [optMap, hb, hl']⟩

theorem optFold_some_forall {σ α : Type _} {f : σ → α → Option σ} {l : List α} {s s' : σ}
    (h : optFold f s l = some s') : ∀ a ∈ l, ∃ t t', f t a = some t' := by
  induction l generalizing s with
  | nil => intro a ha; simp at ha
  | cons x l ih =>
    simp only [optFold] at h
    cases hfx : f s x with
    | none => simp [hfx] at h
    | some s1 =>
      rw [hfx, Option.some_bind] at h
      intro a ha
      rcases List.mem_cons.mp ha with rfl | ha'
      · exact ⟨s, s1, hfx⟩
      · exact ih h a ha'

/-! ### Encode characterization -/

theorem encode_some {tm : TileMap} (hwf : tm.WF) :
    ∃ st, tm.encode = some st ∧
      st.width = tm.get_dimensions.1 ∧ st.height = tm.get_dimensions.2 ∧
      st.background.tiles.length = tm.get_dimensions.2 * tm.get_dimensions.1 ∧
      st.foreground.tiles.length = tm.get_dimensions.2 * tm.get_dimensions.1 ∧
      ∀ x y : Nat, x < tm.get_dimensions.1 → y < tm.get_dimensions.2 →
        st.background.tiles[x + y * tm.get_dimensions.1]? = tm.background.get_tile x y ∧
        st.foreground.tiles[x + y * tm.get_dimensions.1]? = tm.foreground.get_tile x y := by
  have hall : ∀ p ∈ gridPairs tm.get_dimensions.1 tm.get_dimensions.2,
      ((fun p : Nat × Nat => tm.get_tile p.1 p.2) p).isSome := by
    intro p hp
    obtain ⟨hx, hy⟩ := mem_gridPairs.mp hp
    obtain ⟨b, f, hbf⟩ := TileMap.map_get_tile_isSome hwf hx hy
    simp [hbf]
  obtain ⟨cells, hcells⟩ := optMap_isSome hall
  refine ⟨⟨tm.get_dimensions.1, tm.get_dimensions.2,
    ⟨cells.map Prod.fst⟩, ⟨cells.map Prod.snd⟩⟩, ?_, rfl, rfl, ?_, ?_, ?_⟩
  · unfold TileMap.encode
    simp only [hcells, Option.map_some']
  · rw [List.length_map, optMap_some_length hcells, gridPairs_length]
  · rw [List.length_map, optMap_some_length hcells, gridPairs_length]
  · intro x y hx hy
    have hpair := gridPairs_getElem?
      (w := tm.get_dimensions.1) (h := tm.get_dimensions.2) hx hy
    have hcell := optMap_some_getElem? hcells hpair
    obtain ⟨hbg, hfg, hw, hh⟩ := hwf
    obtain ⟨b, hb⟩ := LayerContent.get_tile_isSome hbg hx hy
    obtain ⟨f, hf⟩ := LayerContent.get_tile_isSome hfg
      (by rw [← hw]; exact hx) (by rw [← hh]; exact hy)
    have hbfcell : tm.get_tile x y = some (b, f) := TileMap.get_tile_eq_some hb hf
    constructor
    · show (cells.map Prod.fst)[x + y * tm.get_dimensions.1]? = _
      rw [List.getElem?_map, Nat.add_comm x (y * tm.get_dimensions.1), hcell, hbfcell, hb]
      rfl
    · show (cells.map Prod.snd)[x + y * tm.get_dimensions.1]? = _
      rw [List.getElem?_map, Nat.add_comm x (y * tm.get_dimensions.1), hcell, hbfcell, hf]
      rfl

/-! ### Decode characterization -/

theorem decode_fold {s : TileMapStorage} {P : List (Nat × Nat)} {tm : TileMap}
    (hwf : tm.WF) (hdim : tm.get_dimensions = (s.width, s.height))
    (hb : ∀ p ∈ P, p.1 < s.width ∧ p.2 < s.height)
    (hr : ∀ p ∈ P, (s.background.tiles[(p.1 + p.2 * s.width) % 65536]?).isSome ∧
                   (s.foreground.tiles[(p.1 + p.2 * s.width) % 65536]?).isSome) :
    ∃ tm', optFold (decodeStep s) tm P = some tm' ∧ tm'.WF ∧
      tm'.get_dimensions = tm.get_dimensions ∧
      ∀ x y : Nat,
        (tm'.background.get_tile x y =
          if (x, y) ∈ P then s.background.tiles[(x + y * s.width) % 65536]?
          else tm.background.get_tile x y) ∧
        (tm'.foreground.get_tile x y =
          if (x, y) ∈ P then s.foreground.tiles[(x + y * s.width) % 65536]?
          else tm.foreground.get_tile x y) := by
  induction P generalizing tm with
  | nil =>
    refine ⟨tm, rfl, hwf, rfl, ?_⟩
    intro x y
    simp
  | cons q P ih =>
    obtain ⟨px, py⟩ := q
    have hbp := hb (px, py) (List.mem_cons_self (px, py) P)
    have hrp := hr (px, py) (List.mem_cons_self (px, py) P)
    obtain ⟨bt, hbt⟩ := Option.isSome_iff_exists.mp hrp.1
    obtain ⟨ft, hft⟩ := Option.isSome_iff_exists.mp hrp.2
    have hx : px < tm.get_dimensions.1 := by rw [hdim]; exact hbp.1
    have hy : py < tm.get_dimensions.2 := by rw [hdim]; exact hbp.2
    obtain ⟨tm1, htm1⟩ := TileMap.map_set_tile_isSome hwf hx hy bt Layer.Background
    have hwf1 := TileMap.map_set_tile_some_WF htm1 hwf
    have hdim1 : tm1.get_dimensions = (s.width, s.height) :=
      (TileMap.set_tile_some_dims htm1).trans hdim
    have hx1 : px < tm1.get_dimensions.1 := by rw [hdim1]; exact hbp.1
    have hy1 : py < tm1.get_dimensions.2 := by rw [hdim1]; exact hbp.2
    obtain ⟨tm2, htm2⟩ := TileMap.map_set_tile_isSome hwf1 hx1 hy1 ft Layer.Foreground
    have hwf2 := TileMap.map_set_tile_some_WF htm2 hwf1
    have hdim2 : tm2.get_dimensions = (s.width, s.height) :=
      (TileMap.set_tile_some_dims htm2).trans hdim1
    have hstep : decodeStep s tm (px, py) = some tm2 := by
      unfold decodeStep
      rw [hbt, Option.some_bind, htm1, Option.some_bind, hft, Option.some_bind, htm2]
    obtain ⟨tm', hfold, hwf', hdim', hcell⟩ :=
      ih hwf2 hdim2 (fun q hq => hb q (List.mem_cons_of_mem (px, py) hq))
        (fun q hq => hr q (List.mem_cons_of_mem (px, py) hq))
    refine ⟨tm', ?_, hwf', ?_, ?_⟩
    · simp only [optFold]
      rw [hstep, Option.some_bind]
      exact hfold
    · rw [hdim', hdim2, hdim]
    · intro x y
      have hbg2 : tm2.background = tm1.background := TileMap.set_tile_some_other htm2
      have hfg1 : tm1.foreground = tm.foreground := TileMap.set_tile_some_other htm1
      by_cases hmem : (x, y) ∈ P
      · have hthis := hcell x y
        simp only [if_pos hmem] at hthis
        simp only [if_pos (List.mem_cons_of_mem (px, py) hmem)]
        exact hthis
      · have hc := hcell x y
        simp only [if_neg hmem] at hc
        by_cases hpq : (x, y) = (px, py)
        · have hx' : x = px := congrArg Prod.fst hpq
          have hy' : y = py := congrArg Prod.snd hpq
          subst hx'
          subst hy'
          simp only [if_pos (List.mem_cons_self (x, y) P)]
          constructor
          · rw [hc.1, hbg2]
            exact (TileMap.map_set_tile_some_get_self htm1).trans hbt.symm
          · rw [hc.2]
            exact (TileMap.map_set_tile_some_get_self htm2).trans hft.symm
        · have hmem' : (x, y) ∉ (px, py) :: P := by
            intro hmem''
            rcases List.mem_cons.mp hmem'' with h' | h'
            · exact hpq h'
            · exact hmem h'
          simp only [if_neg hmem']
          constructor
          · rw [hc.1, hbg2]
            exact TileMap.map_set_tile_some_get_other htm1 hpq
          · have h2 : tm2.foreground.get_tile x y = tm1.foreground.get_tile x y :=
              TileMap.map_set_tile_some_get_other htm2 hpq
            rw [hc.2, h2, hfg1]

theorem decode_some {s : TileMapStorage}
    (hr : ∀ x y : Nat, x < s.width → y < s.height →
      (s.background.tiles[(x + y * s.width) % 65536]?).isSome ∧
      (s.foreground.tiles[(x + y * s.width) % 65536]?).isSome) :
    ∃ tm', s.decode = some tm' ∧ tm'.WF ∧ tm'.get_dimensions = (s.width, s.height) ∧
      ∀ x y : Nat, x < s.width → y < s.height →
        tm'.background.get_tile x y = s.background.tiles[(x + y * s.width) % 65536]? ∧
        tm'.foreground.get_tile x y = s.foreground.tiles[(x + y * s.width) % 65536]? := by
  obtain ⟨tm', hfold, hwf', hdim', hcell⟩ :=
    decode_fold (s := s) (P := gridPairs s.width s.height)
      (TileMap.map_WF_new s.width s.height) rfl
      (fun p hp => mem_gridPairs.mp hp)
      (fun p hp => hr p.1 p.2 (mem_gridPairs.mp hp).1 (mem_gridPairs.mp hp).2)
  refine ⟨tm', hfold, hwf', hdim', ?_⟩
  intro x y hx hy
  have hmemq : (x, y) ∈ gridPairs s.width s.height := mem_gridPairs.mpr ⟨hx, hy⟩
  have hc := hcell x y
  simp only [if_pos hmemq] at hc
  exact hc

theorem decode_none_of_short {s : TileMapStorage} (hsz : s.width * s.height ≤ 65536)
    (hshort : s.background.tiles.length < s.width * s.height ∨
      s.foreground.tiles.length < s.width * s.height) :
    s.decode = none := by
  cases hdec : s.decode with
  | none => rfl
  | some tm' =>
    exfalso
    have hdec' : optFold (decodeStep s) (TileMap.new s.width s.height)
        (gridPairs s.width s.height) = some tm' := hdec
    have hall := optFold_some_forall hdec'
    have hw : 0 < s.width := by
      rcases hshort with hshort | hshort <;>
        (by_cases h0 : 0 < s.width
         · exact h0
         · exfalso
           have : s.width = 0 := by omega
           rw [this] at hshort
           simp at hshort)
    have hh : 0 < s.height := by
      rcases hshort with hshort | hshort <;>
        (by_cases h0 : 0 < s.height
         · exact h0
         · exfalso
           have : s.height = 0 := by omega
           rw [this] at hshort
           simp at hshort)
    have hcomm : s.width * s.height = s.height * s.width := Nat.mul_comm _ _
    rcases hshort with hshort | hshort
    · have hmem : (s.background.tiles.length % s.width,
          s.background.tiles.length / s.width) ∈ gridPairs s.width s.height :=
        mem_gridPairs.mpr ⟨Nat.mod_lt _ hw,
          (Nat.div_lt_iff_lt_mul hw).mpr (by omega)⟩
      obtain ⟨t, t', hstep⟩ := hall _ hmem
      unfold decodeStep at hstep
      obtain ⟨bt, hbt, _⟩ := Option.bind_eq_some.mp hstep
      have hidx : (s.background.tiles.length % s.width +
          s.background.tiles.length / s.width * s.width) % 65536
          = s.background.tiles.length := by
        rw [Nat.mod_add_div']
        exact Nat.mod_eq_of_lt (by omega)
      rw [hidx, List.getElem?_eq_none (Nat.le_refl _)] at hbt
      cases hbt
    · have hmem : (s.foreground.tiles.length % s.width,
          s.foreground.tiles.length / s.width) ∈ gridPairs s.width s.height :=
        mem_gridPairs.mpr ⟨Nat.mod_lt _ hw,
          (Nat.div_lt_iff_lt_mul hw).mpr (by omega)⟩
      obtain ⟨t, t', hstep⟩ := hall _ hmem
      unfold decodeStep at hstep
      obtain ⟨bt, hbt, hrest⟩ := Option.bind_eq_some.mp hstep
      obtain ⟨tm1, htm1, hrest2⟩ := Option.bind_eq_some.mp hrest
      obtain ⟨ft, hft, _⟩ := Option.bind_eq_some.mp hrest2
      have hidx : (s.foreground.tiles.length % s.width +
          s.foreground.tiles.length / s.width * s.width) % 65536
          = s.foreground.tiles.length := by
        rw [Nat.mod_add_div']
        exact Nat.mod_eq_of_lt (by omega)
      rw [hidx, List.getElem?_eq_none (Nat.le_refl _)] at hft
      cases hft

/-! ### MapViewer and fill_rect lemmas -/

namespace MapViewer

theorem viewer_set_tile_some {mv mv' : MapViewer} {x y : Nat} {v : Option Tile}
    (h : mv.set_tile x y v = some mv') :
    ∃ m, mv.map.set_tile x y v Layer.Background = some m ∧
      mv' = { mv with modified := true, map := m, cacheValid := false } := by
  unfold set_tile at h
  cases hm : mv.map.set_tile x y v Layer.Background with
  | none => rw [hm] at h; cases h
  | some m =>
    rw [hm, Option.map_some'] at h
    injection h with h
    exact ⟨m, rfl, h.symm⟩

theorem viewer_set_tile_isSome {mv : MapViewer} (hwf : mv.map.WF) {x y : Nat}
    (hx : x < mv.map.get_dimensions.1) (hy : y < mv.map.get_dimensions.2)
    (v : Option Tile) : ∃ mv', mv.set_tile x y v = some mv' := by
  obtain ⟨m, hm⟩ := TileMap.map_set_tile_isSome hwf hx hy v Layer.Background
  exact ⟨_, by unfold set_tile; rw [hm, Option.map_some']⟩

end MapViewer

theorem fill_fold {cells : List (Int × Int)} {mv : MapViewer}
    (hwf : mv.map.WF)
    (hin : ∀ c ∈ cells, u16ofInt c.1 < mv.map.get_dimensions.1 ∧
      u16ofInt c.2 < mv.map.get_dimensions.2) :
    ∃ mv', optFold fillStep mv cells = some mv' ∧
      mv'.tile = mv.tile ∧ mv'.map.WF ∧
      mv'.map.get_dimensions = mv.map.get_dimensions ∧
      mv'.map.foreground = mv.map.foreground ∧
      ∀ cx cy : Nat,
        mv'.map.background.get_tile cx cy =
          if ∃ c ∈ cells, u16ofInt c.1 = cx ∧ u16ofInt c.2 = cy
          then some mv.tile else mv.map.background.get_tile cx cy := by
  induction cells generalizing mv with
  | nil =>
    refine ⟨mv, rfl, rfl, hwf, rfl, rfl, ?_⟩
    intro cx cy
    simp
  | cons c cells ih =>
    obtain ⟨hcx, hcy⟩ := hin c (List.mem_cons_self c cells)
    obtain ⟨m, hm⟩ :=
      TileMap.map_set_tile_isSome hwf hcx hcy mv.tile Layer.Background
    have hstep : fillStep mv c
        = some { mv with modified := true, map := m, cacheValid := false } := by
      unfold fillStep MapViewer.set_tile
      rw [hm, Option.map_some']
    have hwf1 : ({ mv with modified := true, map := m, cacheValid := false }
        : MapViewer).map.WF := TileMap.map_set_tile_some_WF hm hwf
    have hdims1 : ({ mv with modified := true, map := m, cacheValid := false }
        : MapViewer).map.get_dimensions = mv.map.get_dimensions :=
      TileMap.set_tile_some_dims hm
    obtain ⟨mv', hfold, htile, hwf', hdims', hfg', hcell⟩ :=
      ih hwf1 (fun c' hc' => by
        rw [hdims1]
        exact hin c' (List.mem_cons_of_mem c hc'))
    refine ⟨mv', ?_, htile, hwf', hdims'.trans hdims1, ?_, ?_⟩
    · simp only [optFold]
      rw [hstep, Option.some_bind]
      exact hfold
    · rw [hfg']
      exact TileMap.set_tile_some_other hm
    · intro cx cy
      have hc := hcell cx cy
      by_cases hex : ∃ c' ∈ cells, u16ofInt c'.1 = cx ∧ u16ofInt c'.2 = cy
      · have hex' : ∃ c' ∈ c :: cells, u16ofInt c'.1 = cx ∧ u16ofInt c'.2 = cy := by
          obtain ⟨c', hc', he⟩ := hex
          exact ⟨c', List.mem_cons_of_mem c hc', he⟩
        rw [if_pos hex] at hc
        rw [if_pos hex']
        exact hc
      · rw [if_neg hex] at hc
        by_cases hthis : u16ofInt c.1 = cx ∧ u16ofInt c.2 = cy
        · rw [if_pos ⟨c, List.mem_cons_self c cells, hthis⟩, hc]
          have hself : m.background.get_tile (u16ofInt c.1) (u16ofInt c.2)
              = some mv.tile := TileMap.map_set_tile_some_get_self hm
          rw [← hthis.1, ← hthis.2]
          exact hself
        · rw [if_neg (by
            rintro ⟨c', hc', he⟩
            rcases List.mem_cons.mp hc' with rfl | hc''
            · exact hthis he
            · exact hex ⟨c', hc'', he⟩), hc]
          have hother : m.background.get_tile cx cy
              = mv.map.background.get_tile cx cy :=
            TileMap.map_set_tile_some_get_other hm (by
              intro hcontra
              apply hthis
              exact ⟨(congrArg Prod.fst hcontra).symm, (congrArg Prod.snd hcontra).symm⟩)
          exact hother

/-! ### Rectangle geometry -/

theorem mem_rectCells {min_x min_y w h : Int} {c : Int × Int} :
    c ∈ rectCells min_x min_y w h ↔
      min_x ≤ c.1 ∧ c.1 < min_x + w.natAbs ∧
      min_y ≤ c.2 ∧ c.2 < min_y + h.natAbs := by
  have hxle : min_x ≤ min_x + (w.natAbs : Int) :=
    le_add_of_nonneg_right (Int.natCast_nonneg _)
  have hyle : min_y ≤ min_y + (h.natAbs : Int) :=
    le_add_of_nonneg_right (Int.natCast_nonneg _)
  unfold rectCells
  simp only [List.mem_flatMap, List.mem_map]
  constructor
  · rintro ⟨cx, hcx, cy, hcy, rfl⟩
    obtain ⟨h1, h2⟩ := (mem_intRange hxle).mp hcx
    obtain ⟨h3, h4⟩ := (mem_intRange hyle).mp hcy
    exact ⟨h1, h2, h3, h4⟩
  · rintro ⟨h1, h2, h3, h4⟩
    exact ⟨c.1, (mem_intRange hxle).mpr ⟨h1, h2⟩,
      c.2, (mem_intRange hyle).mpr ⟨h3, h4⟩, Prod.mk.eta⟩

theorem u16ofInt_eq_toNat {c : Int} (h0 : 0 ≤ c) (h1 : c < 65536) :
    u16ofInt c = c.toNat := by
  unfold u16ofInt
  rw [Int.emod_eq_of_lt h0 h1]

theorem rectLength_eq (a b : Nat) :
    rectLength a b = (a : Int) - b + (if (b : Int) ≤ a then 1 else 0) := by
  unfold rectLength
  simp only [Int.sub_nonneg]

theorem rect_interval (a b : Nat) :
    min (b : Int) ((b : Int) + rectLength a b)
      = (if (b : Int) ≤ a then (b : Int) else (a : Int)) ∧
    min (b : Int) ((b : Int) + rectLength a b) + ((rectLength a b).natAbs : Int)
      = (if (b : Int) ≤ a then (a : Int) + 1 else (b : Int)) := by
  rw [rectLength_eq]
  by_cases hab : (b : Int) ≤ a
  · rw [if_pos hab, if_pos hab, if_pos hab, min_eq_left (by omega)]
    exact ⟨by omega, by omega⟩
  · rw [if_neg hab, if_neg hab, if_neg hab, min_eq_right (by omega)]
    exact ⟨by omega, by omega⟩

theorem fillCond_iff {min_x min_y w h : Int} (hx0 : 0 ≤ min_x) (hy0 : 0 ≤ min_y)
    (hx1 : min_x + (w.natAbs : Int) ≤ 65536) (hy1 : min_y + (h.natAbs : Int) ≤ 65536)
    (cx cy : Nat) :
    (∃ c ∈ rectCells min_x min_y w h, u16ofInt c.1 = cx ∧ u16ofInt c.2 = cy) ↔
      (min_x ≤ (cx : Int) ∧ (cx : Int) < min_x + (w.natAbs : Int) ∧
       min_y ≤ (cy : Int) ∧ (cy : Int) < min_y + (h.natAbs : Int)) := by
  constructor
  · rintro ⟨c, hc, hcx, hcy⟩
    obtain ⟨h1, h2, h3, h4⟩ := mem_rectCells.mp hc
    have e1 : ((cx : Nat) : Int) = c.1 := by
      rw [← hcx, u16ofInt_eq_toNat (by omega) (by omega)]
      exact Int.toNat_of_nonneg (by omega)
    have e2 : ((cy : Nat) : Int) = c.2 := by
      rw [← hcy, u16ofInt_eq_toNat (by omega) (by omega)]
      exact Int.toNat_of_nonneg (by omega)
    rw [e1, e2]
    exact ⟨h1, h2, h3, h4⟩
  · rintro ⟨h1, h2, h3, h4⟩
    refine ⟨((cx : Int), (cy : Int)), mem_rectCells.mpr ⟨h1, h2, h3, h4⟩, ?_, ?_⟩
    · rw [u16ofInt_eq_toNat (by omega) (by omega)]
      exact Int.toNat_natCast cx
    · rw [u16ofInt_eq_toNat (by omega) (by omega)]
      exact Int.toNat_natCast cy

/-! ### Remaining helper lemmas -/

theorem getElem?_isSome_of_lt {α : Type _} {l : List α} {i : Nat} (h : i < l.length) :
    (l[i]?).isSome = true := by
  rw [List.getElem?_eq_getElem h]
  rfl

theorem TileMap.get_tile_congr {tm₁ tm₂ : TileMap} {x y : Nat}
    (hb : tm₁.background.get_tile x y = tm₂.background.get_tile x y)
    (hf : tm₁.foreground.get_tile x y = tm₂.foreground.get_tile x y) :
    tm₁.get_tile x y = tm₂.get_tile x y := by
  unfold TileMap.get_tile
  rw [hb, hf]

/-- The `Message::PaintTile` arm of `update`, isolated: outside the error
latch it evaluates the selected-or-current value and writes it through
`MapViewer::set_tile`. -/
theorem update_PaintTile_eq (e : TilemapEditor) (x y : Nat)
    (herr : e.loading_state.is_error = false) :
    e.update (Message.PaintTile x y) =
      (match e.tile_selector.get_selected with
        | some t => some (some (Tile.new t false false))
        | none => e.map_viewer.get_tile x y Layer.Background).bind
        fun v => (e.map_viewer.set_tile x y v).map
          fun mv => ({ e with map_viewer := mv }, false) := by
  unfold TilemapEditor.update
  rw [if_neg (by simp [herr])]
  cases hsel : e.tile_selector.get_selected with
  | none =>
    simp only [hsel]
    cases e.map_viewer.get_tile x y Layer.Background <;> rfl
  | some t =>
    simp only [hsel]
    rfl

/-! ### Claim theorems -/

/-- Claim C1 (amended): for every well-formed grid whose cell count
`width * height` is at most 65536 — so that every flattened index fits the
16-bit arithmetic `(x + y * width)` the decoder performs before its cast —
decoding the encoding succeeds, preserves the dimensions, and reproduces
every in-bounds cell `(value, h_flip, v_flip)` tuple (including `None`s)
on both layers.  For larger grids the index computation wraps and the law
fails (see the counterexample). -/
theorem C1_roundtrip (g : TileMap) (hwf : g.WF)
    (hsz : g.get_dimensions.1 * g.get_dimensions.2 ≤ 65536) :
    ∃ st g', g.encode = some st ∧ st.decode = some g' ∧
      g'.get_dimensions = g.get_dimensions ∧
      ∀ x y : Nat, x < g.get_dimensions.1 → y < g.get_dimensions.2 →
        g'.get_tile x y = g.get_tile x y := by
  obtain ⟨st, henc, hw, hh, hlb, hlf, hpos⟩ := encode_some hwf
  have hcomm : g.get_dimensions.1 * g.get_dimensions.2
      = g.get_dimensions.2 * g.get_dimensions.1 := Nat.mul_comm _ _
  have hr : ∀ x y : Nat, x < st.width → y < st.height →
      (st.background.tiles[(x + y * st.width) % 65536]?).isSome ∧
      (st.foreground.tiles[(x + y * st.width) % 65536]?).isSome := by
    intro x y hx hy
    have hxw : x < g.get_dimensions.1 := by rw [← hw]; exact hx
    have hyh : y < g.get_dimensions.2 := by rw [← hh]; exact hy
    have hidx : x + y * st.width < g.get_dimensions.1 * g.get_dimensions.2 := by
      rw [hw]
      exact flatIdx_lt hxw hyh
    have hmod : (x + y * st.width) % 65536 = x + y * st.width :=
      Nat.mod_eq_of_lt (by omega)
    rw [hmod]
    constructor
    · exact getElem?_isSome_of_lt (by rw [hlb]; omega)
    · exact getElem?_isSome_of_lt (by rw [hlf]; omega)
  obtain ⟨g', hdec, hwf', hdim', hcells'⟩ := decode_some hr
  refine ⟨st, g', henc, hdec, ?_, ?_⟩
  · rw [hdim', hw, hh]
  · intro x y hx hy
    have hx' : x < st.width := by rw [hw]; exact hx
    have hy' : y < st.height := by rw [hh]; exact hy
    obtain ⟨hbg', hfg'⟩ := hcells' x y hx' hy'
    obtain ⟨hbg, hfg⟩ := hpos x y hx hy
    have hidx : x + y * st.width < g.get_dimensions.1 * g.get_dimensions.2 := by
      rw [hw]
      exact flatIdx_lt hx hy
    have hmod : (x + y * st.width) % 65536 = x + y * st.width :=
      Nat.mod_eq_of_lt (by omega)
    apply TileMap.get_tile_congr
    · rw [hbg', hmod, hw]
      exact hbg
    · rw [hfg', hmod, hw]
      exact hfg

/-- Claim C1, witness: the round trip at the default 32 × 32 grid. -/
theorem C1_roundtrip_witness :
    TileMap.default.WF ∧
    TileMap.default.get_dimensions.1 * TileMap.default.get_dimensions.2 ≤ 65536 ∧
    (∃ st g', TileMap.default.encode = some st ∧ st.decode = some g' ∧
      g'.get_dimensions = TileMap.default.get_dimensions ∧
      ∀ x y : Nat, x < TileMap.default.get_dimensions.1 →
        y < TileMap.default.get_dimensions.2 →
        g'.get_tile x y = TileMap.default.get_tile x y) :=
  ⟨by decide, by decide, C1_roundtrip TileMap.default (by decide) (by decide)⟩

/-- Claim C1, counterexample: the claim as stated (any dimensions) fails.
On the 256 × 257 grid `cexGrid`, whose only occupied cell is the
background of `(0, 0)`, the decoder reads cell `(0, 256)` from flat index
`(0 + 256 * 256) % 2^16 = 0`, so the round-tripped grid shows the `(0, 0)`
tile at the in-bounds coordinate `(0, 256)` where the original grid has
`None`. -/
theorem C1_counterexample :
    cexGrid.WF ∧ cexGrid.get_dimensions = (256, 257) ∧
    ∃ st g', cexGrid.encode = some st ∧ st.decode = some g' ∧
      g'.get_tile 0 256 = some (some (Tile.new 5 false false), none) ∧
      cexGrid.get_tile 0 256 = some (none, none) ∧
      g'.get_tile 0 256 ≠ cexGrid.get_tile 0 256 := by
  have hwfc : cexGrid.WF := by
    refine ⟨⟨?_, ?_⟩, LayerContent.WF_new 256 257, rfl, rfl⟩
    · simp only [cexGrid]
      rw [List.length_set, List.length_replicate]
    · intro row hrow
      simp only [cexGrid] at hrow ⊢
      rcases List.mem_or_eq_of_mem_set hrow with hrow' | rfl
      · rw [List.eq_of_mem_replicate hrow']
        exact List.length_replicate 257 _
      · rw [List.length_set, List.length_replicate]
  have hbg00 : cexGrid.background.get_tile 0 0
      = some (some (Tile.new 5 false false)) := by
    rw [LayerContent.get_tile_def]
    simp only [cexGrid]
    rw [List.getElem?_set_self (by rw [List.length_replicate]; norm_num),
      Option.some_bind,
      List.getElem?_set_self (by rw [List.length_replicate]; norm_num)]
  have hbg0256 : cexGrid.background.get_tile 0 256 = some none := by
    rw [LayerContent.get_tile_def]
    simp only [cexGrid]
    rw [List.getElem?_set_self (by rw [List.length_replicate]; norm_num),
      Option.some_bind,
      List.getElem?_set_ne (by norm_num : (0 : Nat) ≠ 256),
      List.getElem?_replicate]
    norm_num
  have hfg00 : cexGrid.foreground.get_tile 0 0 = some none :=
    LayerContent.get_tile_new (by norm_num) (by norm_num)
  have hfg0256 : cexGrid.foreground.get_tile 0 256 = some none :=
    LayerContent.get_tile_new (by norm_num) (by norm_num)
  obtain ⟨st, henc, hw, hh, hlb, hlf, hpos⟩ := encode_some hwfc
  have hw' : st.width = 256 := hw
  have hh' : st.height = 257 := hh
  have hlb' : st.background.tiles.length = 65792 := by rw [hlb]; rfl
  have hlf' : st.foreground.tiles.length = 65792 := by rw [hlf]; rfl
  have hr : ∀ x y : Nat, x < st.width → y < st.height →
      (st.background.tiles[(x + y * st.width) % 65536]?).isSome ∧
      (st.foreground.tiles[(x + y * st.width) % 65536]?).isSome := by
    intro x y hx hy
    have h1 : (x + y * st.width) % 65536 < 65536 := Nat.mod_lt _ (by norm_num)
    constructor
    · exact getElem?_isSome_of_lt (by rw [hlb']; omega)
    · exact getElem?_isSome_of_lt (by rw [hlf']; omega)
  obtain ⟨g', hdec, hwf', hdim', hcells'⟩ := decode_some hr
  have hx0 : (0 : Nat) < st.width := by rw [hw']; norm_num
  have hy256 : (256 : Nat) < st.height := by rw [hh']; norm_num
  obtain ⟨hbgc, hfgc⟩ := hcells' 0 256 hx0 hy256
  have hidx : (0 + 256 * st.width) % 65536 = 0 := by rw [hw']
  rw [hidx] at hbgc hfgc
  obtain ⟨hp00b, hp00f⟩ := hpos 0 0 (by decide) (by decide)
  have hi0 : (0 : Nat) + 0 * cexGrid.get_dimensions.1 = 0 := by simp
  rw [hi0] at hp00b hp00f
  rw [hp00b, hbg00] at hbgc
  rw [hp00f, hfg00] at hfgc
  refine ⟨hwfc, rfl, st, g', henc, hdec, ?_, ?_, ?_⟩
  · exact TileMap.get_tile_eq_some hbgc hfgc
  · exact TileMap.get_tile_eq_some hbg0256 hfg0256
  · rw [TileMap.get_tile_eq_some hbgc hfgc, TileMap.get_tile_eq_some hbg0256 hfg0256]
    decide

/-- Claim C2 (amended): the decoder performs no length check at all, and
the code defines no `MalformedLayout` error.  For a record whose declared
cell count fits `u16` index arithmetic, decoding succeeds if and only if
both flattened sequences have at least `width * height` entries: a
too-long sequence is silently accepted (its extra entries ignored), and a
too-short one fails — by an out-of-bounds `Vec` indexing panic, not a
structured error.  Decoding builds a fresh grid, so the previously loaded
grid is indeed never mutated. -/
theorem C2_decode_no_length_check (s : TileMapStorage)
    (hsz : s.width * s.height ≤ 65536) :
    (s.decode).isSome = true ↔
      (s.width * s.height ≤ s.background.tiles.length ∧
       s.width * s.height ≤ s.foreground.tiles.length) := by
  constructor
  · intro hd
    by_cases h1 : s.width * s.height ≤ s.background.tiles.length
    · by_cases h2 : s.width * s.height ≤ s.foreground.tiles.length
      · exact ⟨h1, h2⟩
      · rw [decode_none_of_short hsz (Or.inr (by omega))] at hd
        simp at hd
    · rw [decode_none_of_short hsz (Or.inl (by omega))] at hd
      simp at hd
  · rintro ⟨h1, h2⟩
    have hr : ∀ x y : Nat, x < s.width → y < s.height →
        (s.background.tiles[(x + y * s.width) % 65536]?).isSome ∧
        (s.foreground.tiles[(x + y * s.width) % 65536]?).isSome := by
      intro x y hx hy
      have hidx := flatIdx_lt hx hy
      have hmod : (x + y * s.width) % 65536 = x + y * s.width :=
        Nat.mod_eq_of_lt (by omega)
      rw [hmod]
      exact ⟨getElem?_isSome_of_lt (by omega), getElem?_isSome_of_lt (by omega)⟩
    obtain ⟨tm', hdec, _, _, _⟩ := decode_some hr
    rw [hdec]
    rfl

/-- Claim C2, witness: the characterization applied to the 1 × 1 record
with a two-entry background sequence. -/
theorem C2_decode_no_length_check_witness :
    tooLongStorage.width * tooLongStorage.height ≤ 65536 ∧
    ((tooLongStorage.decode).isSome = true ↔
      (tooLongStorage.width * tooLongStorage.height
          ≤ tooLongStorage.background.tiles.length ∧
       tooLongStorage.width * tooLongStorage.height
          ≤ tooLongStorage.foreground.tiles.length)) :=
  ⟨by decide, C2_decode_no_length_check tooLongStorage (by decide)⟩

/-- Claim C2, counterexample to the claim as stated: a 1 × 1 record whose
background sequence has 2 ≠ 1 entries decodes successfully instead of
failing with a `MalformedLayout` error. -/
theorem C2_counterexample :
    tooLongStorage.background.tiles.length ≠ tooLongStorage.width * tooLongStorage.height ∧
    (tooLongStorage.decode).isSome = true := by decide

/-- Claim C3 (code bug): growing a 1 × 1 grid to 2 × 1 must leave the new
cell `(1, 0)` readable as `None`, but `resize` grows the height by
appending to the outer vector that `new`/`get_tile`/`set_tile` index by
`x`, so after the resize the dimensions say 2 × 1 while the outer vector
still has a single row: reading the in-bounds cell `(1, 0)` panics
(modelled as `none`) instead of yielding `(None, None)`. -/
theorem C3_resize_growth_bug :
    ((TileMap.new 1 1).resize 2 1).get_dimensions = (2, 1) ∧
    ((TileMap.new 1 1).resize 2 1).get_tile 1 0 = none := by decide

/-- Claim C4 (code bug): after growing a 2 × 2 grid to 3 × 3 the
coordinate `(2, 3)` has `y = 3 ≥ height = 3` and must fail out of range,
but the axis-swapped `resize` left row 2 with four entries, so the access
silently succeeds and returns `(None, None)`. -/
theorem C4_out_of_bounds_bug :
    ((TileMap.new 2 2).resize 3 3).get_dimensions = (3, 3) ∧
    ((TileMap.new 2 2).resize 3 3).get_tile 2 3 = some (none, none) := by decide

/-- Claim C5: on a well-formed grid, for every in-bounds coordinate, every
`v : Option Tile` (the single entry point covers both setting and
clearing, `None` meaning erase) and every layer, `set_tile` succeeds and a
following `get_tile` returns `v` on that layer, while the other layer is
untouched in its entirety and every other cell of the written layer is
unchanged. -/
theorem C5_set_then_get (tm : TileMap) (x y : Nat) (v : Option Tile) (layer : Layer)
    (hwf : tm.WF) (hx : x < tm.get_dimensions.1) (hy : y < tm.get_dimensions.2) :
    ∃ tm', tm.set_tile x y v layer = some tm' ∧
      (tm'.layerOf layer).get_tile x y = some v ∧
      tm'.layerOf layer.other = tm.layerOf layer.other ∧
      ∀ x' y' : Nat, (x', y') ≠ (x, y) →
        (tm'.layerOf layer).get_tile x' y' = (tm.layerOf layer).get_tile x' y' := by
  obtain ⟨tm', h⟩ := TileMap.map_set_tile_isSome hwf hx hy v layer
  exact ⟨tm', h, TileMap.map_set_tile_some_get_self h, TileMap.set_tile_some_other h,
    fun x' y' hne => TileMap.map_set_tile_some_get_other h hne⟩

/-- Claim C5, witness: a concrete grid, cell, tile and layer. -/
theorem C5_set_then_get_witness :
    (TileMap.new 2 2).WF ∧ 0 < (TileMap.new 2 2).get_dimensions.1 ∧
    1 < (TileMap.new 2 2).get_dimensions.2 ∧
    (∃ tm', (TileMap.new 2 2).set_tile 0 1 (some (Tile.new 3 true false))
        Layer.Background = some tm' ∧
      (tm'.layerOf Layer.Background).get_tile 0 1
        = some (some (Tile.new 3 true false)) ∧
      tm'.layerOf Layer.Background.other
        = (TileMap.new 2 2).layerOf Layer.Background.other ∧
      ∀ x' y' : Nat, (x', y') ≠ (0, 1) →
        (tm'.layerOf Layer.Background).get_tile x' y'
          = ((TileMap.new 2 2).layerOf Layer.Background).get_tile x' y') :=
  ⟨by decide, by decide, by decide,
    C5_set_then_get (TileMap.new 2 2) 0 1 (some (Tile.new 3 true false))
      Layer.Background (by decide) (by decide) (by decide)⟩

/-- Claim C6: with a rectangle pending at anchor `(ax, ay)`, a pointer
move to `(px, py)` recomputes the pending size as
`(len(px, ax), len(py, ay))` with the sign-aware length function
`len(a, b) = (a - b) + (1 if a - b >= 0 else 0)`; a release then emits
`PaintRect(ax, ay, w, h)` with that pending size; and `fill_rect`
overwrites with the viewer's current tile exactly the background cells
with `x ∈ [min(ax, ax+w), min(ax, ax+w) + |w|)` and
`y ∈ [min(ay, ay+h), min(ay, ay+h) + |h|)`, leaving the foreground layer
and every other background cell untouched. -/
theorem C6_rectangle (mv : MapViewer) (tool : Tool) (d0 : Int × Int) (ax ay px py : Nat)
    (hwf : mv.map.WF)
    (hax : ax < mv.map.get_dimensions.1) (hpx : px < mv.map.get_dimensions.1)
    (hay : ay < mv.map.get_dimensions.2) (hpy : py < mv.map.get_dimensions.2)
    (hw16 : mv.map.get_dimensions.1 ≤ 65536) (hh16 : mv.map.get_dimensions.2 ≤ 65536) :
    (canvasUpdate tool ⟨Interaction.Rectangle ax ay, d0⟩ CanvasEvent.CursorMoved px py).1
      = ⟨Interaction.Rectangle ax ay, (rectLength px ax, rectLength py ay)⟩ ∧
    (canvasUpdate tool ⟨Interaction.Rectangle ax ay,
        (rectLength px ax, rectLength py ay)⟩ CanvasEvent.ButtonReleased px py).2
      = some (ViewerMessage.PaintRect ax ay (rectLength px ax) (rectLength py ay)) ∧
    ∃ mv', mv.fill_rect ax ay (rectLength px ax) (rectLength py ay) = some mv' ∧
      mv'.map.foreground = mv.map.foreground ∧
      ∀ cx cy : Nat,
        mv'.map.background.get_tile cx cy =
          if min (ax : Int) ((ax : Int) + rectLength px ax) ≤ (cx : Int) ∧
             (cx : Int) < min (ax : Int) ((ax : Int) + rectLength px ax)
               + ((rectLength px ax).natAbs : Int) ∧
             min (ay : Int) ((ay : Int) + rectLength py ay) ≤ (cy : Int) ∧
             (cy : Int) < min (ay : Int) ((ay : Int) + rectLength py ay)
               + ((rectLength py ay).natAbs : Int)
          then some mv.tile else mv.map.background.get_tile cx cy := by
  refine ⟨rfl, rfl, ?_⟩
  obtain ⟨hmx, hMx⟩ := rect_interval px ax
  obtain ⟨hmy, hMy⟩ := rect_interval py ay
  have hx0 : 0 ≤ min (ax : Int) ((ax : Int) + rectLength px ax) := by
    rw [hmx]; split_ifs <;> omega
  have hy0 : 0 ≤ min (ay : Int) ((ay : Int) + rectLength py ay) := by
    rw [hmy]; split_ifs <;> omega
  have hx1 : min (ax : Int) ((ax : Int) + rectLength px ax)
      + ((rectLength px ax).natAbs : Int) ≤ 65536 := by
    rw [hMx]; split_ifs <;> omega
  have hy1 : min (ay : Int) ((ay : Int) + rectLength py ay)
      + ((rectLength py ay).natAbs : Int) ≤ 65536 := by
    rw [hMy]; split_ifs <;> omega
  have hin : ∀ c ∈ rectCells (min (ax : Int) ((ax : Int) + rectLength px ax))
      (min (ay : Int) ((ay : Int) + rectLength py ay))
      (rectLength px ax) (rectLength py ay),
      u16ofInt c.1 < mv.map.get_dimensions.1 ∧
      u16ofInt c.2 < mv.map.get_dimensions.2 := by
    intro c hc
    obtain ⟨h1, h2, h3, h4⟩ := mem_rectCells.mp hc
    have e1 : u16ofInt c.1 = c.1.toNat := u16ofInt_eq_toNat (by omega) (by omega)
    have e2 : u16ofInt c.2 = c.2.toNat := u16ofInt_eq_toNat (by omega) (by omega)
    constructor
    · rw [e1]
      rw [hMx] at h2
      split_ifs at h2 <;> omega
    · rw [e2]
      rw [hMy] at h4
      split_ifs at h4 <;> omega
  obtain ⟨mv', hfold, htile, hwf', hdims', hfg', hcellf⟩ := fill_fold hwf hin
  refine ⟨mv', hfold, hfg', ?_⟩
  intro cx cy
  rw [hcellf cx cy]
  simp only [fillCond_iff hx0 hy0 hx1 hy1]

/-- Claim C6, witness: anchoring at `(3, 3)` and dragging to `(1, 1)`
gives pending size `(-2, -2)`, and the released fill paints exactly the
2 × 2 block with corners `(1, 1)` and `(2, 2)`: cells `(1, 1)` and
`(2, 2)` receive the selected tile while `(3, 3)` and `(0, 0)` keep their
previous value. -/
theorem C6_rectangle_witness :
    rectLength 1 3 = -2 ∧
    ∃ mv', rectViewer.fill_rect 3 3 (rectLength 1 3) (rectLength 1 3) = some mv' ∧
      mv'.map.background.get_tile 1 1 = some rectViewer.tile ∧
      mv'.map.background.get_tile 2 2 = some rectViewer.tile ∧
      mv'.map.background.get_tile 3 3 = rectViewer.map.background.get_tile 3 3 ∧
      mv'.map.background.get_tile 0 0 = rectViewer.map.background.get_tile 0 0 := by
  refine ⟨by decide, ?_⟩
  obtain ⟨-, -, mv', hfill, hfg, hcells⟩ :=
    C6_rectangle rectViewer Tool.Rect (1, 1) 3 3 1 1 (by decide) (by decide)
      (by decide) (by decide) (by decide) (by decide) (by decide)
  refine ⟨mv', hfill, ?_, ?_, ?_, ?_⟩
  · have h := hcells 1 1
    rw [if_pos (by decide)] at h
    exact h
  · have h := hcells 2 2
    rw [if_pos (by decide)] at h
    exact h
  · have h := hcells 3 3
    rw [if_neg (by decide)] at h
    exact h
  · have h := hcells 0 0
    rw [if_neg (by decide)] at h
    exact h

/-- Claim C7 (amended): while the operation latch is in any state other
than `Inactive`, incoming open-map, save-map and open-tiles requests are
silently dropped — the latch is unchanged, no command is started, nothing
is queued.  A new-map request, however, is only dropped in the `Error`
state: the `NewMap` handler has no latch guard, so in the other active
states it overwrites the latch with `NewMap` and starts the dialog
command (see the counterexample).  In particular an open-map request
arriving while the latch is `LoadingTiles` is dropped and the latch stays
`LoadingTiles`. -/
theorem C7_latch_drops (e : TilemapEditor) (h : e.loading_state.active = true) :
    e.update Message.OpenMap = some (e, false) ∧
    e.update Message.SaveMap = some (e, false) ∧
    e.update Message.OpenTiles = some (e, false) ∧
    (e.loading_state = LoadingState.Error →
      e.update Message.NewMap = some (e, false)) ∧
    (e.loading_state = LoadingState.LoadingTiles →
      e.update Message.OpenMap = some (e, false)) := by
  obtain ⟨ls, tl, sel, mv⟩ := e
  cases ls with
  | Inactive => exact Bool.noConfusion h
  | NewMap =>
    exact ⟨rfl, rfl, rfl, fun hcon => LoadingState.noConfusion hcon,
      fun hcon => LoadingState.noConfusion hcon⟩
  | OpeningMap =>
    exact ⟨rfl, rfl, rfl, fun hcon => LoadingState.noConfusion hcon,
      fun hcon => LoadingState.noConfusion hcon⟩
  | SavingMap =>
    exact ⟨rfl, rfl, rfl, fun hcon => LoadingState.noConfusion hcon,
      fun hcon => LoadingState.noConfusion hcon⟩
  | LoadingTiles =>
    exact ⟨rfl, rfl, rfl, fun hcon => LoadingState.noConfusion hcon, fun _ => rfl⟩
  | Error =>
    exact ⟨rfl, rfl, rfl, fun _ => rfl, fun hcon => LoadingState.noConfusion hcon⟩

/-- Claim C7, witness: the drops at an editor whose latch is
`LoadingTiles`. -/
theorem C7_latch_drops_witness :
    latchedEditor.loading_state.active = true ∧
    (latchedEditor.update Message.OpenMap = some (latchedEditor, false) ∧
     latchedEditor.update Message.SaveMap = some (latchedEditor, false) ∧
     latchedEditor.update Message.OpenTiles = some (latchedEditor, false) ∧
     (latchedEditor.loading_state = LoadingState.Error →
       latchedEditor.update Message.NewMap = some (latchedEditor, false)) ∧
     (latchedEditor.loading_state = LoadingState.LoadingTiles →
       latchedEditor.update Message.OpenMap = some (latchedEditor, false))) :=
  ⟨by decide, C7_latch_drops latchedEditor (by decide)⟩

/-- Claim C7, counterexample to the claim as stated: with the latch in
`LoadingTiles`, an incoming user-triggered new-map request is *not*
dropped — the handler overwrites the latch to `NewMap` and returns a
command (the `true` component), because `Message::NewMap` is the one
request handler without the `loading_state.active()` guard. -/
theorem C7_counterexample :
    latchedEditor.loading_state = LoadingState.LoadingTiles ∧
    latchedEditor.update Message.NewMap
      = some ({ latchedEditor with loading_state := LoadingState.NewMap }, true) ∧
    LoadingState.NewMap ≠ LoadingState.LoadingTiles :=
  ⟨rfl, rfl, by decide⟩

/-- Claim C8: outside the error latch, processing `PaintTile(x, y)` at an
in-bounds cell of a well-formed map leaves the background value at
`(x, y)` unchanged when no palette tile is selected (painting nothing
never erases — a `None` cell stays `None`), and overwrites it with
`Tile {value := s, h_flip := false, v_flip := false}` when index `s` is
selected. -/
theorem C8_paint_passive_or_overwrite (e : TilemapEditor) (x y : Nat)
    (herr : e.loading_state.is_error = false) (hwf : e.map_viewer.map.WF)
    (hx : x < e.map_viewer.map.get_dimensions.1)
    (hy : y < e.map_viewer.map.get_dimensions.2) :
    (e.tile_selector.get_selected = none →
      ∃ e', e.update (Message.PaintTile x y) = some (e', false) ∧
        e'.map_viewer.map.background.get_tile x y
          = e.map_viewer.map.background.get_tile x y) ∧
    (∀ s : Nat, e.tile_selector.get_selected = some s →
      ∃ e', e.update (Message.PaintTile x y) = some (e', false) ∧
        e'.map_viewer.map.background.get_tile x y
          = some (some (Tile.new s false false))) := by
  constructor
  · intro hsel
    have hupd := update_PaintTile_eq e x y herr
    simp only [hsel] at hupd
    obtain ⟨b, hbg⟩ := LayerContent.get_tile_isSome hwf.1 hx hy
    obtain ⟨f, hfg⟩ := LayerContent.get_tile_isSome hwf.2.1
      (by rw [← hwf.2.2.1]; exact hx) (by rw [← hwf.2.2.2]; exact hy)
    have hbf : e.map_viewer.map.get_tile x y = some (b, f) :=
      TileMap.get_tile_eq_some hbg hfg
    have hval : e.map_viewer.get_tile x y Layer.Background = some b := by
      unfold MapViewer.get_tile
      rw [hbf, Option.map_some']
    rw [hval, Option.some_bind] at hupd
    obtain ⟨m, hm⟩ := TileMap.map_set_tile_isSome hwf hx hy b Layer.Background
    have hset : e.map_viewer.set_tile x y b = some
        { e.map_viewer with modified := true, map := m, cacheValid := false } := by
      unfold MapViewer.set_tile
      rw [hm, Option.map_some']
    rw [hset, Option.map_some'] at hupd
    refine ⟨_, hupd, ?_⟩
    show m.background.get_tile x y = e.map_viewer.map.background.get_tile x y
    rw [hbg]
    exact TileMap.map_set_tile_some_get_self hm
  · intro s hsel
    have hupd := update_PaintTile_eq e x y herr
    simp only [hsel] at hupd
    obtain ⟨m, hm⟩ := TileMap.map_set_tile_isSome hwf hx hy
      (some (Tile.new s false false)) Layer.Background
    have hset : e.map_viewer.set_tile x y (some (Tile.new s false false)) = some
        { e.map_viewer with modified := true, map := m, cacheValid := false } := by
      unfold MapViewer.set_tile
      rw [hm, Option.map_some']
    rw [Option.some_bind, hset, Option.map_some'] at hupd
    refine ⟨_, hupd, ?_⟩
    show m.background.get_tile x y = some (some (Tile.new s false false))
    exact TileMap.map_set_tile_some_get_self hm

/-- Claim C8, witness: painting cell `(0, 1)` of an idle 2 × 2 session. -/
theorem C8_paint_witness :
    sampleEditor.loading_state.is_error = false ∧
    sampleEditor.map_viewer.map.WF ∧
    0 < sampleEditor.map_viewer.map.get_dimensions.1 ∧
    1 < sampleEditor.map_viewer.map.get_dimensions.2 ∧
    ((sampleEditor.tile_selector.get_selected = none →
      ∃ e', sampleEditor.update (Message.PaintTile 0 1) = some (e', false) ∧
        e'.map_viewer.map.background.get_tile 0 1
          = sampleEditor.map_viewer.map.background.get_tile 0 1) ∧
     (∀ s : Nat, sampleEditor.tile_selector.get_selected = some s →
      ∃ e', sampleEditor.update (Message.PaintTile 0 1) = some (e', false) ∧
        e'.map_viewer.map.background.get_tile 0 1
          = some (some (Tile.new s false false)))) :=
  ⟨by decide, by decide, by decide, by decide,
    C8_paint_passive_or_overwrite sampleEditor 0 1 (by decide) (by decide)
      (by decide) (by decide)⟩

/-- Claim C9: with a tile source loaded, `select(i)` with
`i ≥ frame_count()` leaves the selector state entirely unchanged, while
`select(i)` with `i < frame_count()` sets the selection to `i`. -/
theorem C9_select_bounds (ts : TileSelector) (frames i : Nat) :
    (frames ≤ i → ts.select (some frames) i = ts) ∧
    (i < frames → (ts.select (some frames) i).selected = some i) := by
  constructor
  · intro hge
    simp only [TileSelector.select]
    rw [if_neg (by omega)]
  · intro hlt
    simp only [TileSelector.select]
    rw [if_pos hlt]

/-- Claim C9, witness: selecting index 5 against a 3-frame source is
rejected; selecting index 1 succeeds. -/
theorem C9_select_bounds_witness :
    (TileSelector.new.select (some 3) 5 = TileSelector.new) ∧
    ((TileSelector.new.select (some 3) 1).selected = some 1) :=
  ⟨(C9_select_bounds TileSelector.new 3 5).1 (by decide),
   (C9_select_bounds TileSelector.new 3 1).2 (by decide)⟩

/-- Claim C10: a `PaintTile` processed with no palette tile selected
leaves the cell value unchanged but still goes through the single
`MapViewer::set_tile` entry point, which unconditionally sets the
modified flag and clears (invalidates) the render cache — so a pointer
drag with nothing selected marks an untouched map as modified. -/
theorem C10_passive_paint_side_effects (e : TilemapEditor) (x y : Nat)
    (herr : e.loading_state.is_error = false) (hwf : e.map_viewer.map.WF)
    (hx : x < e.map_viewer.map.get_dimensions.1)
    (hy : y < e.map_viewer.map.get_dimensions.2)
    (hsel : e.tile_selector.get_selected = none) :
    ∃ e', e.update (Message.PaintTile x y) = some (e', false) ∧
      e'.map_viewer.modified = true ∧
      e'.map_viewer.cacheValid = false ∧
      e'.map_viewer.map.background.get_tile x y
        = e.map_viewer.map.background.get_tile x y := by
  have hupd := update_PaintTile_eq e x y herr
  simp only [hsel] at hupd
  obtain ⟨b, hbg⟩ := LayerContent.get_tile_isSome hwf.1 hx hy
  obtain ⟨f, hfg⟩ := LayerContent.get_tile_isSome hwf.2.1
    (by rw [← hwf.2.2.1]; exact hx) (by rw [← hwf.2.2.2]; exact hy)
  have hbf : e.map_viewer.map.get_tile x y = some (b, f) :=
    TileMap.get_tile_eq_some hbg hfg
  have hval : e.map_viewer.get_tile x y Layer.Background = some b := by
    unfold MapViewer.get_tile
    rw [hbf, Option.map_some']
  rw [hval, Option.some_bind] at hupd
  obtain ⟨m, hm⟩ := TileMap.map_set_tile_isSome hwf hx hy b Layer.Background
  have hset : e.map_viewer.set_tile x y b = some
      { e.map_viewer with modified := true, map := m, cacheValid := false } := by
    unfold MapViewer.set_tile
    rw [hm, Option.map_some']
  rw [hset, Option.map_some'] at hupd
  refine ⟨_, hupd, rfl, rfl, ?_⟩
  show m.background.get_tile x y = e.map_viewer.map.background.get_tile x y
  rw [hbg]
  exact TileMap.map_set_tile_some_get_self hm

/-- Claim C10, witness: an untouched session (`modified = false`) becomes
modified by a selection-less `PaintTile` that does not change the cell. -/
theorem C10_passive_paint_side_effects_witness :
    sampleEditor.map_viewer.modified = false ∧
    sampleEditor.loading_state.is_error = false ∧
    sampleEditor.map_viewer.map.WF ∧
    0 < sampleEditor.map_viewer.map.get_dimensions.1 ∧
    0 < sampleEditor.map_viewer.map.get_dimensions.2 ∧
    sampleEditor.tile_selector.get_selected = none ∧
    (∃ e', sampleEditor.update (Message.PaintTile 0 0) = some (e', false) ∧
      e'.map_viewer.modified = true ∧
      e'.map_viewer.cacheValid = false ∧
      e'.map_viewer.map.background.get_tile 0 0
        = sampleEditor.map_viewer.map.background.get_tile 0 0) :=
  ⟨by decide, by decide, by decide, by decide, by decide, by decide,
    C10_passive_paint_side_effects sampleEditor 0 0 (by decide) (by decide)
      (by decide) (by decide) (by decide)⟩
